import Mathlib

/-!
# chaoskube: time windows, weekday parsing, hour-range parsing and the main loop

A shallow embedding of `util/util.go` (`TimePeriod.Includes`, `ParseWeekdays`)
and of `main.go` (`parseHours`, the arguments handed to `chaoskube.New`, the
termination loop), followed by the theorems about them.

Conventions of the embedding.

* A Go `string` is a list of Unicode code points (`List Char`), i.e. valid UTF-8 text.
* A `time.Time` is an instant on the wall-clock time line: whole seconds counted
  from 0001-01-01T00:00:00 plus a nanosecond part below one second.  Monotonic
  clock readings are not modelled (the instants stored in a `TimePeriod` come
  from parsing and from `AddDate`, which carry none) and the local zone is taken
  to have offset zero.
* `log.Fatal` ends the process; a function that may call it returns `Except`.
-/

namespace Chaoskube

/-! ## package time: instants -/

/-- An instant, as `time.Time` stores it: seconds and a nanosecond part in `[0, 999999999]`. -/
structure Time where
  sec : Int
  nsec : Fin 1000000000
  deriving DecidableEq, Repr

/-- The method `Time.After`: `ts > us || ts == us && t.nsec() > u.nsec()`. -/
def Time.After (t u : Time) : Bool :=
  decide (t.sec > u.sec) || (decide (t.sec = u.sec) && decide (t.nsec > u.nsec))

/-- The method `Time.Before`: `ts < us || ts == us && t.nsec() < u.nsec()`. -/
def Time.Before (t u : Time) : Bool :=
  decide (t.sec < u.sec) || (decide (t.sec = u.sec) && decide (t.nsec < u.nsec))

/-- Position of an instant on the time line, in nanoseconds. -/
def Time.nanos (t : Time) : Int :=
  t.sec * 1000000000 + (t.nsec.val : Int)

/-! ## package util: TimePeriod -/

/-- The struct `TimePeriod` of `util.go`. -/
structure TimePeriod where
  From : Time
  To : Time
  deriving DecidableEq, Repr

/-- The method `TimePeriod.Includes`: `time.After(tp.From) && time.Before(tp.To)`. -/
def TimePeriod.Includes (tp : TimePeriod) (time : Time) : Bool :=
  time.After tp.From && time.Before tp.To

/-! ## packages unicode and strings -/

/-- The predicate `unicode.IsSpace`: in Latin-1 the characters tab, newline, vertical tab,
form feed, carriage return, space, U+0085 and U+00A0; above Latin-1 the code points with
the White_Space property. -/
def IsSpace (r : Char) : Bool :=
  let n := r.toNat
  (0x09 ≤ n && n ≤ 0x0D) || n == 0x20 || n == 0x85 || n == 0xA0 || n == 0x1680 ||
  (0x2000 ≤ n && n ≤ 0x200A) || n == 0x2028 || n == 0x2029 || n == 0x202F ||
  n == 0x205F || n == 0x3000

/-- The function `unicode.ToLower`, given exactly on ASCII and on the two code points
outside ASCII whose lower case is an ASCII letter (U+0130 and the Kelvin sign U+212A).
The remaining entries of the Unicode case table are not reproduced and such code
points are left unchanged.  Those entries map code points outside ASCII to code points
outside ASCII, and none of them to or from white space or the comma, so a lower-cased
piece is one of the ASCII keys of `days` here exactly when it is one in Go: no result of
`ParseWeekdays` depends on the entries left out. -/
def toLowerRune (r : Char) : Char :=
  if 'A'.toNat ≤ r.toNat ∧ r.toNat ≤ 'Z'.toNat then Char.ofNat (r.toNat + 32)
  else if r.toNat = 0x130 then 'i'
  else if r.toNat = 0x212A then 'k'
  else r

/-- The function `unicode.ToUpper`, given exactly on ASCII and on the two code points
outside ASCII whose upper case is an ASCII letter (long s U+017F and dotless i U+0131).
Other code points are left unchanged, as for `toLowerRune`: the entries left out map
code points outside ASCII to code points outside ASCII other than U+0130 and U+212A, so
an upper-cased and then lower-cased piece is one of the ASCII keys of `days` here exactly
when it is one in Go. -/
def toUpperRune (r : Char) : Char :=
  if 'a'.toNat ≤ r.toNat ∧ r.toNat ≤ 'z'.toNat then Char.ofNat (r.toNat - 32)
  else if r.toNat = 0x17F then 'S'
  else if r.toNat = 0x131 then 'I'
  else r

/-- The function `strings.ToLower`: every code point mapped by `unicode.ToLower`. -/
def ToLower (s : List Char) : List Char := s.map toLowerRune

/-- The function `strings.ToUpper`: every code point mapped by `unicode.ToUpper`. -/
def ToUpper (s : List Char) : List Char := s.map toUpperRune

/-- The function `strings.TrimSpace`: leading and trailing white space removed. -/
def TrimSpace (s : List Char) : List Char :=
  ((s.dropWhile IsSpace).reverse.dropWhile IsSpace).reverse

/-- The function `strings.Split` for a one-character separator: the pieces between
consecutive separators; a string without separator (the empty one included) gives
one piece. -/
def Split : List Char → Char → List (List Char)
  | [], _ => [[]]
  | c :: cs, sep =>
    if c = sep then [] :: Split cs sep
    else
      match Split cs sep with
      | [] => [[c]]
      | p :: ps => (c :: p) :: ps

/-! ## package util: ParseWeekdays -/

/-- The type `time.Weekday`, an integer with `Sunday = 0`, ..., `Saturday = 6`. -/
abbrev Weekday := Nat

def Sunday : Weekday := 0
def Monday : Weekday := 1
def Tuesday : Weekday := 2
def Wednesday : Weekday := 3
def Thursday : Weekday := 4
def Friday : Weekday := 5
def Saturday : Weekday := 6

/-- The map literal `days` of `ParseWeekdays`, as a lookup returning `(day, ok)`. -/
def days (key : List Char) : Option Weekday :=
  if key = "sun".toList then some Sunday
  else if key = "mon".toList then some Monday
  else if key = "tue".toList then some Tuesday
  else if key = "wed".toList then some Wednesday
  else if key = "thu".toList then some Thursday
  else if key = "fri".toList then some Friday
  else if key = "sat".toList then some Saturday
  else none

/-- The function `ParseWeekdays` of `util.go`: the loop over `strings.Split(weekdays, ",")`
appending `day` whenever `days[strings.TrimSpace(strings.ToLower(wd))]` is present. -/
def ParseWeekdays (weekdays : List Char) : List Weekday :=
  (Split weekdays ',').foldl
    (fun parsedWeekdays wd =>
      match days (TrimSpace (ToLower wd)) with
      | some day => parsedWeekdays ++ [day]
      | none => parsedWeekdays)
    []

/-- The seven abbreviations in weekday order; the position of a name is its weekday number. -/
def weekdayNames : List (List Char) :=
  ["sun".toList, "mon".toList, "tue".toList, "wed".toList, "thu".toList, "fri".toList,
    "sat".toList]

/-- The description of `ParseWeekdays` in words: split at commas, lower-case and trim each
piece, discard the pieces that are no weekday abbreviation, map the rest to their weekday. -/
def ParseWeekdaysSpec (s : List Char) : List Weekday :=
  ((((Split s ',').map ToLower).map TrimSpace).filter (fun p => decide (p ∈ weekdayNames))).map
    (fun p => weekdayNames.indexOf p)

/-- A string with all white space characters removed. -/
def removeSpace (s : List Char) : List Char := s.filter (fun r => !IsSpace r)

/-! ## package time: calendar arithmetic -/

/-- The function `norm` of package time: `(nhi, nlo)` with `hi*base + lo = nhi*base + nlo`
and `0 ≤ nlo < base`. -/
def norm (hi lo base : Int) : Int × Int :=
  let (hi, lo) :=
    if lo < 0 then
      let n := (-lo - 1) / base + 1
      (hi - n, lo + n * base)
    else (hi, lo)
  if lo ≥ base then
    let n := lo / base
    (hi + n, lo - n * base)
  else (hi, lo)

/-- The function `isLeap`. -/
def isLeap (year : Int) : Bool :=
  year % 4 == 0 && (year % 100 != 0 || year % 400 == 0)

/-- The table `daysBefore`: days in a non-leap year before the month with the given index. -/
def daysBefore (m : Int) : Int :=
  [0, 31, 59, 90, 120, 151, 181, 212, 243, 273, 304, 334, 365].getD m.toNat 0

/-- Days from 0001-01-01 to January 1 of `year`, by 400-, 100- and 4-year cycles as in
`daysSinceEpoch` (whose epoch lies a whole number of 400-year cycles before year 1). -/
def daysSinceEpoch (year : Int) : Int :=
  let y := year - 1
  let n := y / 400
  let y := y - 400 * n
  let d := 146097 * n
  let n := y / 100
  let y := y - 100 * n
  let d := d + 36524 * n
  let n := y / 4
  let y := y - 4 * n
  let d := d + 1461 * n
  d + 365 * y

/-- The function `time.Date` in the zone of offset zero: out-of-range fields are
normalised (month 13 is January of the next year, day 32 of a 31-day month is the first
of the next month, and so on). -/
def Date (year month day hour min sec nsec : Int) : Time :=
  let m := month - 1
  let (year, m) := norm year m 12
  let month := m + 1
  let (sec, nsec) := norm sec nsec 1000000000
  let (min, sec) := norm min sec 60
  let (hour, min) := norm hour min 60
  let (day, hour) := norm day hour 24
  let d := daysSinceEpoch year
  let d := d + daysBefore (month - 1)
  let d := if isLeap year && decide (month ≥ 3) then d + 1 else d
  let d := d + (day - 1)
  let abs := d * 86400 + (hour * 3600 + min * 60 + sec)
  { sec := abs, nsec := ⟨nsec.toNat % 1000000000, Nat.mod_lt _ (by decide)⟩ }

/-- The method `Time.Date` (through `absDate`): year, month and day of an instant. -/
def Time.Date (t : Time) : Int × Int × Int :=
  let d := t.sec / 86400
  let n := d / 146097
  let y := 400 * n
  let d := d - 146097 * n
  let n := d / 36524
  let n := n - n / 4
  let y := y + 100 * n
  let d := d - 36524 * n
  let n := d / 1461
  let y := y + 4 * n
  let d := d - 1461 * n
  let n := d / 365
  let n := n - n / 4
  let y := y + n
  let d := d - 365 * n
  let year := y + 1
  let day := d
  if isLeap year && day == 31 + 29 - 1 then (year, 2, 29)
  else
    let day := if isLeap year && decide (day > 31 + 29 - 1) then day - 1 else day
    let month := day / 31
    let e := daysBefore (month + 1)
    let (month, begin) := if day ≥ e then (month + 1, e) else (month, daysBefore month)
    (year, month + 1, day - begin + 1)

/-- The method `Time.Clock`: hour, minute and second within the day. -/
def Time.Clock (t : Time) : Int × Int × Int :=
  let sec := t.sec % 86400
  let hour := sec / 3600
  let sec := sec - hour * 3600
  let min := sec / 60
  (hour, min, sec - min * 60)

/-- The method `Time.AddDate`: the date fields shifted and handed to `Date` again. -/
def Time.AddDate (t : Time) (years months days : Int) : Time :=
  let (year, month, day) := t.Date
  let (hour, min, sec) := t.Clock
  Chaoskube.Date (year + years) (month + months) (day + days) hour min sec t.nsec.val

/-- Is the character a decimal digit (`isDigit`). -/
def isDigit (c : Char) : Bool := '0'.toNat ≤ c.toNat && c.toNat ≤ '9'.toNat

/-- The function `getnum` of package time: a one- or two-digit number at the head of the
text (exactly two digits when `fixed`), with the rest of the text. -/
def getnum (s : List Char) ( fixed : Bool) : Option (Int × List Char) :=
  match s with
  | [] => none
  | c0 :: s1 =>
    if !isDigit c0 then none
    else
      match s1 with
      | [] => if fixed then none else some ((c0.toNat - '0'.toNat : Nat), s1)
      | c1 :: s2 =>
        if !isDigit c1 then
          if fixed then none else some ((c0.toNat - '0'.toNat : Nat), s1)
        else some (((c0.toNat - '0'.toNat) * 10 + (c1.toNat - '0'.toNat) : Nat), s2)

/-- The call `time.ParseInLocation(time.Kitchen, value, time.Local)`: the layout `3:04PM`
is an hour of one or two digits (at most 12), a colon, a two-digit minute (below 60) and
`AM` or `PM`, with nothing after it; the result is that clock time on January 1 of
year 0.  An error is `none`. -/
def parseKitchen (value : List Char) : Option Time :=
  match getnum value false with
  | none => none
  | some (hour, value) =>
    if hour < 0 ∨ 12 < hour then none
    else
      match value with
      | ':' :: value =>
        match getnum value true with
        | none => none
        | some (min, value) =>
          if min < 0 ∨ 60 ≤ min then none
          else
            match value with
            | [p0, p1] =>
              if p0 = 'P' ∧ p1 = 'M' then
                some (Date 0 1 1 (if hour < 12 then hour + 12 else hour) min 0 0)
              else if p0 = 'A' ∧ p1 = 'M' then
                some (Date 0 1 1 (if hour = 12 then 0 else hour) min 0 0)
              else none
            | _ => none
      | _ => none

/-! ## package main: parseHours -/

/-- What `log.Fatal` was called with when the process ended. -/
inductive Fatal where
  /-- The call `log.Fatal("wrong format")`. -/
  | wrongFormat
  /-- The call `log.Fatal(err)` with the parse error for the given text. -/
  | parseError (value : List Char)
  /-- The call `log.Fatal(err)` with an error of a collaborator (cluster client, selector
  parser, time zone database, `TerminateVictim`). -/
  | other (msg : String)
  deriving DecidableEq, Repr

deriving instance DecidableEq for Except

/-- The body of the loop of `parseHours` for one comma-separated item `tp`, with `now` the
value of `time.Now()` in that iteration. -/
def parseHoursItem (now : Time) (tp : List Char) : Except Fatal TimePeriod :=
  let t := Split tp '-'
  if t.length ≠ 2 then .error .wrongFormat
  else
    match parseKitchen (t.getD 0 []) with
    | none => .error (.parseError (t.getD 0 []))
    | some t1 =>
      match parseKitchen (t.getD 1 []) with
      | none => .error (.parseError (t.getD 1 []))
      | some t2 =>
        let (year, month, day) := now.Date
        .ok { From := t1.AddDate year month day, To := t2.AddDate year month day }

/-- The loop of `parseHours` over the remaining items; `i` counts the iterations made and
`now i` is the clock reading of iteration `i`. -/
def parseHoursLoop (now : Nat → Time) :
    List (List Char) → Nat → List TimePeriod → Except Fatal (List TimePeriod)
  | [], _, parsedHours => .ok parsedHours
  | tp :: rest, i, parsedHours =>
    match parseHoursItem (now i) tp with
    | .error e => .error e
    | .ok p => parseHoursLoop now rest (i + 1) (parsedHours ++ [p])

/-- The function `parseHours` of `main.go`. -/
def parseHours (now : Nat → Time) (hours : List Char) : Except Fatal (List TimePeriod) :=
  parseHoursLoop now (Split hours ',') 0 []

/-- An item of the `--excluded-hours` value that does not split at `-` into exactly two
parts, or one of whose parts is no clock-time literal. -/
def BadItem (tp : List Char) : Prop :=
  (Split tp '-').length ≠ 2 ∨ ∃ p ∈ Split tp '-', parseKitchen p = none

/-- The period the loop body builds from the two parsed clock times `t1` and `t2` when the
clock shows `now`: both shifted by `AddDate(year, int(month), day)` of the current date. -/
def anchored (now t1 t2 : Time) : TimePeriod :=
  { From := t1.AddDate now.Date.1 now.Date.2.1 now.Date.2.2,
    To := t2.AddDate now.Date.1 now.Date.2.1 now.Date.2.2 }

/-! ## package main: start-up and the termination loop -/

/-- The flag values `main` reads that matter here. -/
structure Flags where
  excludedWeekdays : List Char
  excludedHours : List Char
  interval : Nat
  dryRun : Bool

/-- The arguments of the call `chaoskube.New(...)` that `main` computes from the flags. -/
structure NewArgs where
  excludedWeekdays : List Weekday
  excludedTimes : List TimePeriod
  dryRun : Bool
  deriving DecidableEq, Repr

/-- The part of `main` before the loop.  `collaborators` is the first error of `newClient`,
`labels.Parse` and `time.LoadLocation`, if any; after them the weekdays and the hours
are parsed and `chaoskube.New` is called, with `[]chaoskube.TimePeriod{}` in the
position of the hour ranges. -/
def mainSetup (now : Nat → Time) (flags : Flags) (collaborators : Option Fatal) :
    Except Fatal NewArgs :=
  match collaborators with
  | some err => .error err
  | none =>
    let parsedWeekdays := ParseWeekdays flags.excludedWeekdays
    match parseHours now flags.excludedHours with
    | .error err => .error err
    | .ok _parsedHours =>
      .ok { excludedWeekdays := parsedWeekdays, excludedTimes := [], dryRun := flags.dryRun }

/-- Control states of the `for` loop of `main`. -/
inductive LoopState where
  /-- About to call `TerminateVictim` for the given cycle. -/
  | terminating (cycle : Nat)
  /-- In `time.Sleep(d)` after the call of the given cycle. -/
  | sleeping (cycle : Nat) (d : Nat)
  /-- After `log.Fatal(err)`: the process has ended. -/
  | fatal (cycle : Nat) (err : Fatal)
  deriving DecidableEq, Repr

/-- One step of the loop; `results k` is what the call of `TerminateVictim` in cycle `k`
returns (`none` for a nil error). -/
def loopStep (interval : Nat) (results : Nat → Option Fatal) : LoopState → Option LoopState
  | .terminating k =>
    match results k with
    | some err => some (.fatal k err)
    | none => some (.sleeping k interval)
  | .sleeping k _ => some (.terminating (k + 1))
  | .fatal _ _ => none

/-- The states visited in the first `n` steps from `s`, `s` included; the list ends early
when the loop has stopped. -/
def loopTrace (interval : Nat) (results : Nat → Option Fatal) : Nat → LoopState → List LoopState
  | 0, _ => []
  | n + 1, s =>
    match loopStep interval results s with
    | none => [s]
    | some s' => s :: loopTrace interval results n s'

/-- The states of `n` consecutive cycles without error, starting with cycle `k`: for each
cycle the call of `TerminateVictim` followed by one sleep of the interval. -/
def quietCycles (interval : Nat) : Nat → Nat → List LoopState
  | 0, _ => []
  | n + 1, k => .terminating k :: .sleeping k interval :: quietCycles interval n (k + 1)

/-! ## Theorems -/

theorem Time.After_iff (t u : Time) : t.After u = true ↔ u.nanos < t.nanos := by
  have ht := t.nsec.isLt
  have hu := u.nsec.isLt
  simp only [Time.After, Time.nanos, Bool.or_eq_true, Bool.and_eq_true, decide_eq_true_eq,
    gt_iff_lt, Fin.lt_def]
  constructor
  · rintro (h | ⟨h1, h2⟩) <;> omega
  · intro h
    by_cases h1 : u.sec < t.sec
    · exact Or.inl h1
    · right
      constructor <;> omega

theorem Time.Before_iff (t u : Time) : t.Before u = true ↔ t.nanos < u.nanos := by
  have ht := t.nsec.isLt
  have hu := u.nsec.isLt
  simp only [Time.Before, Time.nanos, Bool.or_eq_true, Bool.and_eq_true, decide_eq_true_eq,
    Fin.lt_def]
  constructor
  · rintro (h | ⟨h1, h2⟩) <;> omega
  · intro h
    by_cases h1 : t.sec < u.sec
    · exact Or.inl h1
    · right
      constructor <;> omega

theorem Time.nanos_injective (t u : Time) (h : t.nanos = u.nanos) : t = u := by
  have ht := t.nsec.isLt
  have hu := u.nsec.isLt
  cases t with
  | mk ts tn =>
    cases u with
    | mk us un =>
      simp only [Time.nanos] at h
      have h1 : ts = us := by simp only at ht hu; omega
      have h2 : tn = un := by
        apply Fin.ext
        simp only at ht hu
        omega
      rw [h1, h2]

theorem TimePeriod.Includes_iff (tp : TimePeriod) (t : Time) :
    tp.Includes t = true ↔ tp.From.nanos < t.nanos ∧ t.nanos < tp.To.nanos := by
  simp only [TimePeriod.Includes, Bool.and_eq_true, Time.After_iff, Time.Before_iff]

/-- C1: `Includes` holds exactly for the instants strictly after `From` and strictly
before `To` on the time line; it is false at `From`, at `To`, before `From` and after `To`. -/
theorem C1_includes_iff_strictly_between (tp : TimePeriod) (t : Time) :
    (tp.Includes t = true ↔ tp.From.nanos < t.nanos ∧ t.nanos < tp.To.nanos) ∧
    (t = tp.From → tp.Includes t = false) ∧
    (t = tp.To → tp.Includes t = false) ∧
    (t.nanos < tp.From.nanos → tp.Includes t = false) ∧
    (tp.To.nanos < t.nanos → tp.Includes t = false) := by
  have key := TimePeriod.Includes_iff tp t
  have neg : ∀ {p : Prop}, (p → ¬ (tp.From.nanos < t.nanos ∧ t.nanos < tp.To.nanos)) →
      p → tp.Includes t = false := by
    intro p hp h
    cases hb : tp.Includes t with
    | false => rfl
    | true => exact absurd (key.mp hb) (hp h)
  refine ⟨key, neg ?_, neg ?_, neg ?_, neg ?_⟩
  · intro h hc; rw [h] at hc; exact lt_irrefl _ hc.1
  · intro h hc; rw [h] at hc; exact lt_irrefl _ hc.2
  · intro h hc; exact lt_asymm h hc.1
  · intro h hc; exact lt_asymm h hc.2

/-- C10: a period whose `To` is not strictly after its `From` includes no instant. -/
theorem C10_inverted_period_includes_nothing (tp : TimePeriod)
    (h : tp.To.After tp.From = false) (t : Time) : tp.Includes t = false := by
  cases hb : tp.Includes t with
  | false => rfl
  | true =>
    have h1 := (TimePeriod.Includes_iff tp t).mp hb
    have h2 : ¬ tp.From.nanos < tp.To.nanos := by
      intro hc
      have := (Time.After_iff tp.To tp.From).mpr hc
      rw [h] at this
      exact Bool.false_ne_true this
    exact absurd (lt_trans h1.1 h1.2) h2

/-- The witness of C10: the period from 22:00 to 02:00 of one day includes no instant,
not even 23:00 of that day. -/
theorem C10_inverted_period_includes_nothing_witness :
    (TimePeriod.mk (Date 2017 3 15 22 0 0 0) (Date 2017 3 15 2 0 0 0)).To.After
        (TimePeriod.mk (Date 2017 3 15 22 0 0 0) (Date 2017 3 15 2 0 0 0)).From = false ∧
    (TimePeriod.mk (Date 2017 3 15 22 0 0 0) (Date 2017 3 15 2 0 0 0)).Includes
        (Date 2017 3 15 23 0 0 0) = false :=
  ⟨by decide, C10_inverted_period_includes_nothing _ (by decide) _⟩

/-! ### ParseWeekdays -/

theorem ParseWeekdays_loop (l : List (List Char)) (acc : List Weekday) :
    l.foldl
      (fun parsedWeekdays wd =>
        match days (TrimSpace (ToLower wd)) with
        | some day => parsedWeekdays ++ [day]
        | none => parsedWeekdays)
      acc = acc ++ l.filterMap (fun wd => days (TrimSpace (ToLower wd))) := by
  induction l generalizing acc with
  | nil => simp
  | cons a l ih =>
    rw [List.foldl_cons, ih]
    cases hg : days (TrimSpace (ToLower a)) with
    | none => simp [List.filterMap_cons, hg]
    | some b => simp [List.filterMap_cons, hg]

theorem ParseWeekdays_eq_filterMap (s : List Char) :
    ParseWeekdays s = (Split s ',').filterMap (fun wd => days (TrimSpace (ToLower wd))) := by
  unfold ParseWeekdays
  rw [ParseWeekdays_loop]
  simp

theorem days_eq_indexOf (key : List Char) :
    days key = if key ∈ weekdayNames then some (weekdayNames.indexOf key) else none := by
  unfold days
  split_ifs with h1 h2 h3 h4 h5 h6 h7 h8 <;> first
    | (subst_vars; decide)
    | (exfalso; simp [weekdayNames] at *; tauto)

/-- C2: `ParseWeekdays` is the list described in words (split at commas, lower-case and trim
each piece, keep the weekday abbreviations, map them to `Sunday = 0 ... Saturday = 6`, in
input order with duplicates kept), and it is empty for the empty string. -/
theorem C2_parseWeekdays_refines_description (s : List Char) :
    ParseWeekdays s = ParseWeekdaysSpec s ∧ ParseWeekdays [] = [] := by
  refine ⟨?_, by decide⟩
  rw [ParseWeekdays_eq_filterMap, ParseWeekdaysSpec]
  simp only [days_eq_indexOf]
  induction Split s ',' with
  | nil => rfl
  | cons p ps ih =>
    simp only [List.filterMap_cons, List.map_cons, List.filter_cons]
    by_cases h : TrimSpace (ToLower p) ∈ weekdayNames
    · simp only [h, if_true, decide_True, List.map_cons, ih]
    · simp only [h, if_false, decide_False, ih, Bool.false_eq_true]

/-- C3: white space inside a piece is not ignored: `s at` gives no weekday although the
same text without white space, `sat`, gives Saturday. -/
theorem C3_inner_white_space_is_not_ignored :
    ParseWeekdays "s at".toList = [] ∧
    removeSpace "s at".toList = "sat".toList ∧
    ParseWeekdays (removeSpace "s at".toList) = [Saturday] := by
  decide

/-! ### parseHours and the start-up of main -/

/-- C5: with the clock on 2017-03-15, the item `8:00AM-9:00AM` gives a period from 08:00 to
09:00 on 2017-04-16, one month and one day after the current date. -/
theorem C5_hours_anchored_one_month_and_one_day_late :
    (Date 2017 3 15 10 30 0 0).Date = (2017, 3, 15) ∧
    ∃ tp, parseHours (fun _ => Date 2017 3 15 10 30 0 0) "8:00AM-9:00AM".toList = .ok [tp] ∧
      tp.From.Date = (2017, 4, 16) ∧ tp.To.Date = (2017, 4, 16) ∧
      tp.From.Clock = (8, 0, 0) ∧ tp.To.Clock = (9, 0, 0) := by
  refine ⟨by decide, ⟨Date 2017 4 16 8 0 0 0, Date 2017 4 16 9 0 0 0⟩, ?_⟩
  decide

/-- C6: with `--excluded-hours=8:00AM-9:00AM` the function `parseHours` gives one period,
yet `chaoskube.New` receives the empty list of periods; the weekdays it receives are those
of `ParseWeekdays`. -/
theorem C6_parsed_hours_not_handed_to_New :
    ∃ tp args,
      parseHours (fun _ => Date 2017 3 15 10 30 0 0) "8:00AM-9:00AM".toList = .ok [tp] ∧
      mainSetup (fun _ => Date 2017 3 15 10 30 0 0)
        { excludedWeekdays := "sat,sun".toList, excludedHours := "8:00AM-9:00AM".toList,
          interval := 600, dryRun := true } none = .ok args ∧
      args.excludedWeekdays = ParseWeekdays "sat,sun".toList ∧
      args.excludedTimes = [] ∧ args.excludedTimes ≠ [tp] := by
  refine ⟨⟨Date 2017 4 16 8 0 0 0, Date 2017 4 16 9 0 0 0⟩,
    ⟨[Saturday, Sunday], [], true⟩, ?_⟩
  decide

/-- C7: for the empty `--excluded-hours` value `parseHours` ends in the fatal error
`wrong format`, whatever the clock shows, and with it the start-up of `main`. -/
theorem C7_empty_hours_is_fatal (now : Nat → Time) (weekdays : List Char) (interval : Nat)
    (dryRun : Bool) :
    parseHours now [] = .error .wrongFormat ∧
    mainSetup now
      { excludedWeekdays := weekdays, excludedHours := [], interval := interval,
        dryRun := dryRun } none = .error .wrongFormat := by
  constructor <;> rfl

/-! ### Case of letters in ParseWeekdays -/

theorem Split_ne_nil (s : List Char) (sep : Char) : Split s sep ≠ [] := by
  cases s with
  | nil => simp [Split]
  | cons c cs =>
    unfold Split
    split_ifs
    · simp
    · split <;> simp

theorem Split_map (f : Char → Char) (sep : Char) (s : List Char)
    (h : ∀ c ∈ s, (f c = sep ↔ c = sep)) :
    Split (s.map f) sep = (Split s sep).map (List.map f) := by
  induction s with
  | nil => rfl
  | cons c cs ih =>
    have ih' := ih (fun d hd => h d (List.mem_cons_of_mem _ hd))
    have hc := h c (List.mem_cons_self _ _)
    rw [List.map_cons]
    unfold Split
    by_cases hsep : c = sep
    · rw [if_pos hsep, if_pos (hc.mpr hsep), ih', List.map_cons, List.map_nil]
    · rw [if_neg hsep, if_neg (fun hf => hsep (hc.mp hf)), ih']
      cases hS : Split cs sep with
      | nil => exact absurd hS (Split_ne_nil cs sep)
      | cons p ps => rfl

theorem mem_of_mem_Split (sep c : Char) (s p : List Char)
    (hp : p ∈ Split s sep) (hc : c ∈ p) : c ∈ s := by
  induction s generalizing p with
  | nil =>
    simp only [Split, List.mem_singleton] at hp
    subst hp
    exact hc
  | cons d ds ih =>
    unfold Split at hp
    by_cases hsep : d = sep
    · rw [if_pos hsep] at hp
      rcases List.mem_cons.mp hp with h | h
      · subst h
        exact absurd hc (List.not_mem_nil _)
      · exact List.mem_cons_of_mem _ (ih p h hc)
    · rw [if_neg hsep] at hp
      cases hS : Split ds sep with
      | nil => exact absurd hS (Split_ne_nil ds sep)
      | cons q qs =>
        rw [hS] at hp ih
        rcases List.mem_cons.mp hp with h | h
        · subst h
          rcases List.mem_cons.mp hc with h' | h'
          · subst h'
            exact List.mem_cons_self _ _
          · exact List.mem_cons_of_mem _ (ih q (List.mem_cons_self _ _) h')
        · exact List.mem_cons_of_mem _ (ih p (List.mem_cons_of_mem _ h) hc)

set_option maxRecDepth 100000 in
theorem ascii_case_table : ∀ n : Fin 128,
    toLowerRune (toUpperRune (Char.ofNat n.val)) = toLowerRune (Char.ofNat n.val) ∧
    toLowerRune (toLowerRune (Char.ofNat n.val)) = toLowerRune (Char.ofNat n.val) ∧
    (toUpperRune (Char.ofNat n.val) = ',' ↔ Char.ofNat n.val = ',') ∧
    (toLowerRune (Char.ofNat n.val) = ',' ↔ Char.ofNat n.val = ',') := by
  decide

theorem ascii_case (c : Char) (h : c.toNat < 128) :
    toLowerRune (toUpperRune c) = toLowerRune c ∧
    toLowerRune (toLowerRune c) = toLowerRune c ∧
    (toUpperRune c = ',' ↔ c = ',') ∧
    (toLowerRune c = ',' ↔ c = ',') := by
  have := ascii_case_table ⟨c.toNat, h⟩
  simpa only [Char.ofNat_toNat] using this

theorem ParseWeekdays_map (f : Char → Char) (s : List Char)
    (hsep : ∀ c ∈ s, (f c = ',' ↔ c = ','))
    (hlow : ∀ c ∈ s, toLowerRune (f c) = toLowerRune c) :
    ParseWeekdays (s.map f) = ParseWeekdays s := by
  rw [ParseWeekdays_eq_filterMap, ParseWeekdays_eq_filterMap, Split_map f ',' s hsep,
    List.filterMap_map]
  apply List.filterMap_congr
  intro p hp
  have : ToLower (List.map f p) = ToLower p := by
    unfold ToLower
    rw [List.map_map]
    apply List.map_congr_left
    intro c hc
    exact hlow c (mem_of_mem_Split ',' c s p hp hc)
  simp only [Function.comp, this]

/-- C4, counterexample: the long s (U+017F) is a lower-case letter whose upper case is `S`;
`ſat` names no weekday, its upper-cased form `SAT` names Saturday. -/
theorem C4_long_s_counterexample :
    ToUpper "ſat".toList = "SAT".toList ∧
    ParseWeekdays "ſat".toList = [] ∧
    ParseWeekdays (ToUpper "ſat".toList) = [Saturday] ∧
    ParseWeekdays "ſat".toList ≠ ParseWeekdays (ToUpper "ſat".toList) := by
  decide

theorem toLowerRune_of_not_ascii (c : Char) (h : ¬ c.toNat < 128)
    (h1 : c.toNat ≠ 0x130) (h2 : c.toNat ≠ 0x212A) : toLowerRune c = c := by
  have hZ : 'Z'.toNat = 90 := by decide
  have hA : ¬ ('A'.toNat ≤ c.toNat ∧ c.toNat ≤ 'Z'.toNat) := by
    rintro ⟨_, hz⟩
    omega
  simp only [toLowerRune, hA, h1, h2, if_false]

theorem toUpperRune_of_not_ascii (c : Char) (h : ¬ c.toNat < 128)
    (h1 : c.toNat ≠ 0x17F) (h2 : c.toNat ≠ 0x131) : toUpperRune c = c := by
  have hz : 'z'.toNat = 122 := by decide
  have ha : ¬ ('a'.toNat ≤ c.toNat ∧ c.toNat ≤ 'z'.toNat) := by
    rintro ⟨_, hz'⟩
    omega
  simp only [toUpperRune, ha, h1, h2, if_false]

theorem eq_ofNat_of_toNat_eq (c : Char) (n : Nat) (h : c.toNat = n) : c = Char.ofNat n := by
  rw [← h, Char.ofNat_toNat]

theorem ne_comma_of_not_ascii (c : Char) (h : ¬ c.toNat < 128) : c ≠ ',' := by
  intro hc
  apply h
  rw [hc]
  decide

theorem toLowerRune_idem (c : Char) : toLowerRune (toLowerRune c) = toLowerRune c := by
  by_cases h : c.toNat < 128
  · exact (ascii_case c h).2.1
  · by_cases h1 : c.toNat = 0x130
    · rw [eq_ofNat_of_toNat_eq c _ h1]
      decide
    · by_cases h2 : c.toNat = 0x212A
      · rw [eq_ofNat_of_toNat_eq c _ h2]
        decide
      · rw [toLowerRune_of_not_ascii c h h1 h2, toLowerRune_of_not_ascii c h h1 h2]

theorem toLowerRune_eq_comma (c : Char) : toLowerRune c = ',' ↔ c = ',' := by
  by_cases h : c.toNat < 128
  · exact (ascii_case c h).2.2.2
  · by_cases h1 : c.toNat = 0x130
    · rw [eq_ofNat_of_toNat_eq c _ h1]
      decide
    · by_cases h2 : c.toNat = 0x212A
      · rw [eq_ofNat_of_toNat_eq c _ h2]
        decide
      · rw [toLowerRune_of_not_ascii c h h1 h2]

theorem toUpperRune_eq_comma (c : Char) : toUpperRune c = ',' ↔ c = ',' := by
  by_cases h : c.toNat < 128
  · exact (ascii_case c h).2.2.1
  · by_cases h1 : c.toNat = 0x17F
    · rw [eq_ofNat_of_toNat_eq c _ h1]
      decide
    · by_cases h2 : c.toNat = 0x131
      · rw [eq_ofNat_of_toNat_eq c _ h2]
        decide
      · rw [toUpperRune_of_not_ascii c h h1 h2]

theorem toLowerRune_toUpperRune (c : Char) (h1 : c.toNat ≠ 0x17F) (h2 : c.toNat ≠ 0x131) :
    toLowerRune (toUpperRune c) = toLowerRune c := by
  by_cases h : c.toNat < 128
  · exact (ascii_case c h).1
  · rw [toUpperRune_of_not_ascii c h h1 h2]

/-- The dotless i (U+0131) behaves like the long s: `frı` names no weekday, its upper-cased
form `FRI` names Friday. -/
theorem dotless_i_example :
    ToUpper "frı".toList = "FRI".toList ∧
    ParseWeekdays "frı".toList = [] ∧
    ParseWeekdays (ToUpper "frı".toList) = [Friday] := by
  decide

/-- C4, amended: for every string `ParseWeekdays` gives the same list for the string and for
its lower-cased form, and it gives that list for the upper-cased form as well whenever
the string contains neither the long s (U+017F) nor the dotless i (U+0131). -/
theorem C4_case_insensitive_except_long_s_and_dotless_i (s : List Char) :
    ParseWeekdays (ToLower s) = ParseWeekdays s ∧
    ((∀ c ∈ s, c.toNat ≠ 0x17F ∧ c.toNat ≠ 0x131) →
      ParseWeekdays (ToUpper s) = ParseWeekdays s) :=
  ⟨ParseWeekdays_map toLowerRune s (fun c _ => toLowerRune_eq_comma c)
      (fun c _ => toLowerRune_idem c),
    fun h => ParseWeekdays_map toUpperRune s (fun c _ => toUpperRune_eq_comma c)
      (fun c hc => toLowerRune_toUpperRune c (h c hc).1 (h c hc).2)⟩

/-- The witness of C4: the text `SaT,é, sUn ,frİ,Kelvin`, written with a mixed-case
ASCII part, an accented letter, the dotted capital I (U+0130) and the Kelvin sign (U+212A);
it names Saturday, Sunday and Friday in each of the three forms. -/
theorem C4_case_insensitive_except_long_s_and_dotless_i_witness :
    (∀ c ∈ "SaT,é, sUn ,frİ,Kelvin".toList, c.toNat ≠ 0x17F ∧ c.toNat ≠ 0x131) ∧
    ParseWeekdays "SaT,é, sUn ,frİ,Kelvin".toList = [Saturday, Sunday, Friday] ∧
    ParseWeekdays (ToLower "SaT,é, sUn ,frİ,Kelvin".toList) =
      ParseWeekdays "SaT,é, sUn ,frİ,Kelvin".toList ∧
    ParseWeekdays (ToUpper "SaT,é, sUn ,frİ,Kelvin".toList) =
      ParseWeekdays "SaT,é, sUn ,frİ,Kelvin".toList :=
  ⟨by decide, by decide,
    (C4_case_insensitive_except_long_s_and_dotless_i "SaT,é, sUn ,frİ,Kelvin".toList).1,
    (C4_case_insensitive_except_long_s_and_dotless_i "SaT,é, sUn ,frİ,Kelvin".toList).2
      (by decide)⟩

/-! ### Fatal errors of parseHours -/

theorem parseHoursItem_cases (now : Time) (tp : List Char) :
    (BadItem tp ∧ ∃ e, parseHoursItem now tp = .error e) ∨
    (¬ BadItem tp ∧ ∃ a b t1 t2, Split tp '-' = [a, b] ∧ parseKitchen a = some t1 ∧
      parseKitchen b = some t2 ∧ parseHoursItem now tp = .ok (anchored now t1 t2)) := by
  unfold parseHoursItem BadItem
  rcases hS : Split tp '-' with _ | ⟨a, _ | ⟨b, _ | ⟨c, r⟩⟩⟩
  · left; simp
  · left; simp
  · cases ha : parseKitchen a with
    | none => left; simp [ha]
    | some t1 =>
      cases hb : parseKitchen b with
      | none => left; simp [ha, hb]
      | some t2 =>
        right
        refine ⟨?_, a, b, t1, t2, rfl, ha, hb, ?_⟩
        · simp [ha, hb]
        · simp [ha, hb, anchored]
  · left; simp

theorem parseHoursLoop_bad (now : Nat → Time) (items : List (List Char)) (i : Nat)
    (acc : List TimePeriod) (h : ∃ tp ∈ items, BadItem tp) :
    ∃ e, parseHoursLoop now items i acc = .error e := by
  induction items generalizing i acc with
  | nil =>
    obtain ⟨tp, htp, _⟩ := h
    exact absurd htp (List.not_mem_nil _)
  | cons x rest ih =>
    unfold parseHoursLoop
    rcases parseHoursItem_cases (now i) x with ⟨_, e, he⟩ | ⟨hgood, _, _, t1, t2, _, _, _, hok⟩
    · exact ⟨e, by rw [he]⟩
    · rw [hok]
      obtain ⟨tp, htp, hbad⟩ := h
      rcases List.mem_cons.mp htp with hx | hr
      · subst hx
        exact absurd hbad hgood
      · exact ih (i + 1) (acc ++ [anchored (now i) t1 t2]) ⟨tp, hr, hbad⟩

theorem parseHoursLoop_good (now : Nat → Time) (items : List (List Char)) (i : Nat)
    (acc : List TimePeriod) (h : ∀ tp ∈ items, ¬ BadItem tp) :
    ∃ ps, parseHoursLoop now items i acc = .ok (acc ++ ps) ∧ ps.length = items.length ∧
      ∀ j tp, items[j]? = some tp →
        ∃ a b t1 t2, Split tp '-' = [a, b] ∧ parseKitchen a = some t1 ∧
          parseKitchen b = some t2 ∧ ps[j]? = some (anchored (now (i + j)) t1 t2) := by
  induction items generalizing i acc with
  | nil => exact ⟨[], by simp [parseHoursLoop], rfl, by simp⟩
  | cons x rest ih =>
    unfold parseHoursLoop
    rcases parseHoursItem_cases (now i) x with ⟨hbad, _⟩ | ⟨_, a, b, t1, t2, hS, ha, hb, hok⟩
    · exact absurd hbad (h x (List.mem_cons_self _ _))
    · rw [hok]
      obtain ⟨ps, hps, hlen, hget⟩ :=
        ih (i + 1) (acc ++ [anchored (now i) t1 t2]) (fun tp htp => h tp (List.mem_cons_of_mem _ htp))
      refine ⟨anchored (now i) t1 t2 :: ps, ?_, ?_, ?_⟩
      · show parseHoursLoop now rest (i + 1) (acc ++ [anchored (now i) t1 t2]) = _
        rw [hps, List.append_assoc, List.singleton_append]
      · simp [hlen]
      · intro j tp hj
        cases j with
        | zero =>
          simp only [List.getElem?_cons_zero, Option.some.injEq] at hj
          subst hj
          exact ⟨a, b, t1, t2, hS, ha, hb, by simp⟩
        | succ j =>
          simp only [List.getElem?_cons_succ] at hj
          obtain ⟨a', b', t1', t2', hS', ha', hb', hp⟩ := hget j tp hj
          refine ⟨a', b', t1', t2', hS', ha', hb', ?_⟩
          simp only [List.getElem?_cons_succ, hp]
          congr 3
          omega

/-- C8: `parseHours` ends in a fatal error exactly when some comma-separated item does not
split at `-` into two parts or has a part that is no clock-time literal; otherwise it
returns one period per item, in input order, built from the two clock times of that item. -/
theorem C8_parseHours_fatal_iff_bad_item (now : Nat → Time) (s : List Char) :
    ((∃ e, parseHours now s = .error e) ↔ ∃ tp ∈ Split s ',', BadItem tp) ∧
    ((¬ ∃ tp ∈ Split s ',', BadItem tp) →
      ∃ ps, parseHours now s = .ok ps ∧ ps.length = (Split s ',').length ∧
        ∀ j tp, (Split s ',')[j]? = some tp →
          ∃ a b t1 t2, Split tp '-' = [a, b] ∧ parseKitchen a = some t1 ∧
            parseKitchen b = some t2 ∧ ps[j]? = some (anchored (now j) t1 t2)) := by
  have good : (¬ ∃ tp ∈ Split s ',', BadItem tp) →
      ∃ ps, parseHours now s = .ok ps ∧ ps.length = (Split s ',').length ∧
        ∀ j tp, (Split s ',')[j]? = some tp →
          ∃ a b t1 t2, Split tp '-' = [a, b] ∧ parseKitchen a = some t1 ∧
            parseKitchen b = some t2 ∧ ps[j]? = some (anchored (now j) t1 t2) := by
    intro h
    obtain ⟨ps, hps, hlen, hget⟩ :=
      parseHoursLoop_good now (Split s ',') 0 [] (fun tp htp hbad => h ⟨tp, htp, hbad⟩)
    refine ⟨ps, by simpa [parseHours] using hps, hlen, ?_⟩
    intro j tp hj
    simpa using hget j tp hj
  refine ⟨⟨?_, fun h => parseHoursLoop_bad now (Split s ',') 0 [] h⟩, good⟩
  rintro ⟨e, he⟩
  by_contra hno
  obtain ⟨ps, hps, _, _⟩ := good hno
  rw [hps] at he
  cases he

/-! ### The termination loop of main -/

theorem loopTrace_quiet (interval : Nat) (results : Nat → Option Fatal) (n m k : Nat)
    (h : ∀ i, i < n → results (k + i) = none) :
    loopTrace interval results (2 * n + m) (.terminating k) =
      quietCycles interval n k ++ loopTrace interval results m (.terminating (k + n)) := by
  induction n generalizing k with
  | zero => simp [quietCycles]
  | succ n ih =>
    have h0 : results k = none := by simpa using h 0 (Nat.succ_pos n)
    have hrest : ∀ i, i < n → results (k + 1 + i) = none := by
      intro i hi
      have := h (i + 1) (Nat.succ_lt_succ hi)
      rwa [show k + (i + 1) = k + 1 + i by omega] at this
    have hlen : 2 * (n + 1) + m = (2 * n + m) + 1 + 1 := by omega
    rw [hlen, quietCycles]
    simp only [loopTrace, loopStep, h0, List.cons_append]
    rw [ih (k + 1) hrest, show k + 1 + n = k + (n + 1) by omega]

theorem loopTrace_fatal (interval : Nat) (results : Nat → Option Fatal) (m k : Nat) (err : Fatal)
    (h : results k = some err) :
    loopTrace interval results (m + 2) (.terminating k) = [.terminating k, .fatal k err] := by
  simp [loopTrace, loopStep, h]

/-- C9: a call of `TerminateVictim` that returns an error is followed by the fatal stop and
nothing else; a call that returns no error is followed by one sleep of the interval and
then by the call of the next cycle; the fatal stop is the only state without successor;
so a run whose first error comes in cycle `n` consists of `n` call-and-sleep pairs, the
call of cycle `n` and the fatal stop, and a run without error never stops. -/
theorem C9_loop_stops_only_at_first_error (interval : Nat) (results : Nat → Option Fatal) :
    (∀ k err, results k = some err →
      loopStep interval results (.terminating k) = some (.fatal k err)) ∧
    (∀ k err, loopStep interval results (.fatal k err) = none) ∧
    (∀ k, results k = none →
      loopStep interval results (.terminating k) = some (.sleeping k interval) ∧
      loopStep interval results (.sleeping k interval) = some (.terminating (k + 1))) ∧
    (∀ s, loopStep interval results s = none → ∃ k err, s = .fatal k err) ∧
    (∀ n err, (∀ i, i < n → results i = none) → results n = some err →
      ∀ m, loopTrace interval results (2 * n + (m + 2)) (.terminating 0) =
        quietCycles interval n 0 ++ [.terminating n, .fatal n err]) ∧
    (∀ n, (∀ i, i < n → results i = none) →
      loopTrace interval results (2 * n) (.terminating 0) = quietCycles interval n 0) := by
  refine ⟨?_, ?_, ?_, ?_, ?_, ?_⟩
  · intro k err h
    simp [loopStep, h]
  · intro k err
    rfl
  · intro k h
    simp [loopStep, h]
  · intro s h
    cases s with
    | terminating k =>
      simp only [loopStep] at h
      cases hr : results k <;> simp [hr] at h
    | sleeping k d => simp [loopStep] at h
    | fatal k err => exact ⟨k, err, rfl⟩
  · intro n err hq herr m
    have hq' : ∀ i, i < n → results (0 + i) = none := by simpa using hq
    rw [loopTrace_quiet interval results n (m + 2) 0 hq', Nat.zero_add,
      loopTrace_fatal interval results m n err herr]
  · intro n hq
    have hq' : ∀ i, i < n → results (0 + i) = none := by simpa using hq
    have := loopTrace_quiet interval results n 0 0 hq'
    simpa [loopTrace] using this

end Chaoskube
